import Mathlib

/-!
Verification of the openhoof agent-runtime core against its specification.

The Python source is shallowly embedded: each Lean definition mirrors one
Python function or method from `src/openhoof`.  Wall-clock instants and
durations are modelled as rationals (the Python code uses `time.time()`
floats; every concrete value appearing in the claims is exact in both
representations).  Fallible Python code (statements that can raise) is
embedded with `Except`; Python dictionaries keyed by strings become
association lists.
-/

namespace Openhoof

/-- Python list slice `xs[-n:]` for `n ≥ 1`: the last `n` elements
(the whole list when `n ≥ xs.length`). -/
def takeLast {α : Type} (n : Nat) (xs : List α) : List α :=
  xs.drop (xs.length - n)

theorem takeLast_length_le {α : Type} (n : Nat) (xs : List α) :
    (takeLast n xs).length ≤ n := by
  simp only [takeLast, List.length_drop]
  omega

theorem takeLast_of_length_le {α : Type} {n : Nat} {xs : List α}
    (h : xs.length ≤ n) : takeLast n xs = xs := by
  simp [takeLast, Nat.sub_eq_zero_of_le h]

theorem takeLast_append_takeLast {α : Type} (n : Nat) (l l' : List α) :
    takeLast n (takeLast n l ++ l') = takeLast n (l ++ l') := by
  unfold takeLast
  rcases Nat.le_total n l.length with h | h
  · rw [List.drop_append_eq_append_drop]
    have hlen : (l.drop (l.length - n)).length = n := by
      simp; omega
    rw [List.drop_append_eq_append_drop, List.drop_drop]
    congr 2 <;> simp [hlen] <;> omega
  · rw [Nat.sub_eq_zero_of_le h, List.drop_zero]

/-! ## Python value model

`PyVal` stands for the dynamically typed values stored in hot-state fields:
enough structure to distinguish lists (which `isinstance(value, list)` and
`.append` act on) from scalars. -/

inductive PyVal where
  | int (n : Int)
  | str (s : String)
  | list (xs : List PyVal)

def PyVal.isList : PyVal → Bool
  | .list _ => true
  | _ => false

/-! ## HotState (`src/openhoof/core/hot_state.py`)

`HotStateFieldConfig`, `HotStateField`, `Notification` and the `HotState`
store.  `maxItems = some 0` is Python `max_items = 0`, which is falsy in the
source conditions `if f.config.max_items ...`. -/

structure HotStateFieldConfig where
  fieldType : String := "object"
  ttl : Option ℚ := none
  refreshTool : Option String := none
  maxItems : Option Nat := none
  deriving DecidableEq, Repr

structure HotStateField where
  config : HotStateFieldConfig
  value : Option PyVal := none
  updatedAt : Option ℚ := none

structure NotificationM where
  name : String
  data : List (String × PyVal)
  timestamp : ℚ

structure HotState where
  fields : List (String × HotStateField)
  notifications : List NotificationM

/-- Python truthiness of the optional integer `max_items`
(`None` and `0` are both falsy). -/
def maxItemsTruthy : Option Nat → Bool
  | none => false
  | some m => m != 0

/-- Python `self._fields.get(field_name)` on the schema dictionary. -/
def lookupField : List (String × HotStateField) → String → Option HotStateField
  | [], _ => none
  | p :: rest, name => if p.1 = name then some p.2 else lookupField rest name

/-- Replace the stored field record for `name` (the Python code mutates the
record found by `self._fields.get(field_name)` in place). -/
def setFieldRec : List (String × HotStateField) → String → HotStateField →
    List (String × HotStateField)
  | [], _, _ => []
  | p :: rest, name, f =>
    (if p.1 = name then (p.1, f) else p) :: setFieldRec rest name f

/-- `HotState.set`: returns the Python `bool` result and the new store.
`now` is the value of `time.time()` at the call. -/
def HotState.set (hs : HotState) (now : ℚ) (name : String) (v : PyVal) :
    Bool × HotState :=
  match lookupField hs.fields name with
  | none => (false, hs)
  | some f =>
    let v' :=
      if f.config.fieldType == "array" && maxItemsTruthy f.config.maxItems
          && v.isList then
        match f.config.maxItems, v with
        | some m, .list xs =>
          if xs.length > m then PyVal.list (takeLast m xs) else PyVal.list xs
        | _, _ => v
      else v
    let f' : HotStateField := { f with value := some v', updatedAt := some now }
    (true, { hs with fields := setFieldRec hs.fields name f' })

/-- `HotState.append`: `.error` models the `AttributeError` the source would
raise when the stored value is a non-list scalar (`f.value.append(item)`). -/
def HotState.append (hs : HotState) (now : ℚ) (name : String) (item : PyVal) :
    Except String (Bool × HotState) :=
  match lookupField hs.fields name with
  | none => .ok (false, hs)
  | some f =>
    if f.config.fieldType != "array" then .ok (false, hs)
    else
      match f.value.getD (.list []) with
      | .list xs =>
        let xs' := xs ++ [item]
        let xs'' :=
          match f.config.maxItems with
          | some m =>
            if m != 0 && xs'.length > m then takeLast m xs' else xs'
          | none => xs'
        let f' : HotStateField :=
          { f with value := some (.list xs''), updatedAt := some now }
        .ok (true, { hs with fields := setFieldRec hs.fields name f' })
      | _ => .error "AttributeError: value has no attribute append"

/-- `HotState.get`: `None` both for unknown fields and unset values. -/
def HotState.get (hs : HotState) (name : String) : Option PyVal :=
  match lookupField hs.fields name with
  | none => none
  | some f => f.value

/-- `HotState.is_stale` at wall-clock `now`. -/
def HotState.isStale (hs : HotState) (now : ℚ) (name : String) : Bool :=
  match lookupField hs.fields name with
  | none => false
  | some f =>
    match f.config.ttl with
    | none => false
    | some ttl =>
      match f.updatedAt with
      | none => true
      | some u => decide (now - u > ttl)

/-- Length of the list stored under `name`, read off an `append` result
(`none` when the call raised or no list is stored). -/
def storedLen (r : Except String (Bool × HotState)) (name : String) :
    Option Nat :=
  match r with
  | .ok (_, hs) =>
    match hs.get name with
    | some (.list xs) => some xs.length
    | _ => none
  | .error _ => none

/-- Run a sequence of `append` calls on the same field, propagating the
first raised exception. -/
def HotState.appendSeq (hs : HotState) (now : ℚ) (name : String) :
    List PyVal → Except String HotState
  | [] => .ok hs
  | item :: rest =>
    match hs.append now name item with
    | .ok (_, hs') => hs'.appendSeq now name rest
    | .error e => .error e

/-! ## Yield-directive parsing (`src/openhoof/agents/autonomy_loop.py`)

`AutonomyLoop._parse_yield_from_response` lowercases the response and applies
substring checks plus the regexes `sleeping for (\d+)s` and
`wake early on: ([^)]+)\)`.  Text is modelled as `List Char`; the regexes are
unrolled into scans (a literal followed by a greedy digit or non-bracket run
admits exactly the leftmost match the Python engine finds, because no proper
sub-run of the greedy part can be followed by the required terminator). -/

/-- Does `pat` occur at the head of `s`? -/
def litMatch : List Char → List Char → Bool
  | [], _ => true
  | _ :: _, [] => false
  | p :: ps, c :: cs => p == c && litMatch ps cs

/-- Does `pat` occur anywhere in `s` (Python `pat in s`)? -/
def hasSub (s pat : List Char) : Bool :=
  match s with
  | [] => pat.isEmpty
  | _ :: rest => litMatch pat s || hasSub rest pat

/-- ASCII lowercasing, the effect of Python `str.lower()` on the ASCII
responses the loop handles. -/
def lowerChars (s : List Char) : List Char :=
  s.map Char.toLower

def isDigitCh (c : Char) : Bool :=
  '0' ≤ c && c ≤ '9'

def digitsToNat (ds : List Char) : Nat :=
  ds.foldl (fun n c => n * 10 + (c.toNat - '0'.toNat)) 0

/-- Leftmost match of `sleeping for (\d+)s` in `s`, returning the captured
number. -/
def findSleepSecs (s : List Char) : Option Nat :=
  match s with
  | [] => none
  | _ :: rest =>
    let pat := "sleeping for ".toList
    if litMatch pat s then
      let after := s.drop pat.length
      let ds := after.takeWhile isDigitCh
      if !ds.isEmpty && litMatch ['s'] (after.drop ds.length) then
        some (digitsToNat ds)
      else findSleepSecs rest
    else findSleepSecs rest

/-- Leftmost match of `wake early on: ([^)]+)\)` in `s`, returning the
captured run. -/
def findWakeList (s : List Char) : Option (List Char) :=
  match s with
  | [] => none
  | _ :: rest =>
    let pat := "wake early on: ".toList
    if litMatch pat s then
      let after := s.drop pat.length
      let run := after.takeWhile (fun c => c != ')')
      if !run.isEmpty && litMatch [')'] (after.drop run.length) then
        some run
      else findWakeList rest
    else findWakeList rest

/-- Python `str.split(",")`. -/
def splitOnComma (s : List Char) : List (List Char) :=
  match s with
  | [] => [[]]
  | c :: rest =>
    let tail := splitOnComma rest
    if c == ',' then [] :: tail
    else
      match tail with
      | [] => [[c]]
      | piece :: more => (c :: piece) :: more

/-- Python `str.strip()`: remove leading and trailing whitespace. -/
def stripChars (s : List Char) : List Char :=
  ((s.dropWhile Char.isWhitespace).reverse.dropWhile Char.isWhitespace).reverse

/-- `YieldDirective` with the dataclass defaults
(`sleep = 0`, `reason = ""`, `wake_early_if = []`). -/
structure YieldDirective where
  mode : String
  sleep : Nat := 0
  reason : String := ""
  wakeEarlyIf : List String := []
  deriving DecidableEq, Repr

/-- `AutonomyLoop._parse_yield_from_response`. -/
def parseYieldFromResponse (response : String) : YieldDirective :=
  let low := lowerChars response.toList
  if hasSub low "shutting down".toList then
    { mode := "shutdown", reason := "agent requested shutdown" }
  else if hasSub low "sleeping for".toList then
    let secs := (findSleepSecs low).getD 30
    let wake :=
      match findWakeList low with
      | none => []
      | some run =>
        (splitOnComma run).map (fun piece => String.mk (stripChars piece))
    { mode := "sleep", sleep := secs, wakeEarlyIf := wake }
  else
    { mode := "continue" }

/-- `AutonomyLoop._response_had_tool_calls`: substring heuristic over the raw
(case-sensitive) response text. -/
def responseHadToolCalls (response : String) : Bool :=
  ["Success", "Error:", "Tool", "executed"].any
    (fun ind => hasSub response.toList ind.toList)

/-! ## Transcripts (`src/openhoof/core/transcripts.py`)

The store keeps one JSON file per session; a transcript value models the
loaded file, and store operations are functions on it. -/

structure Message where
  role : String
  content : String
  timestamp : ℚ := 0
  thinking : Option String := none
  deriving DecidableEq, Repr

structure Transcript where
  sessionId : String
  agentId : String
  messages : List Message := []
  compactionCount : Nat := 0
  summary : Option String := none
  deriving DecidableEq, Repr

/-- `TranscriptStore.append_message` on a loaded transcript. -/
def Transcript.appendMessage (t : Transcript) (m : Message) : Transcript :=
  { t with messages := t.messages ++ [m] }

/-- `TranscriptStore.compact`.  Note the Python slice `other_msgs[-keep_last:]`
with `keep_last = 0` is `other_msgs[0:]`, the whole list. -/
def Transcript.compact (t : Transcript) (keepLast : Nat)
    (summary : Option String) : Transcript :=
  if t.messages.length ≤ keepLast then t
  else
    let systemMsgs := t.messages.filter (fun m => m.role == "system")
    let otherMsgs := t.messages.filter (fun m => m.role != "system")
    let recentMsgs := if keepLast == 0 then otherMsgs
                      else takeLast keepLast otherMsgs
    { t with messages := systemMsgs ++ recentMsgs,
             summary := summary,
             compactionCount := t.compactionCount + 1 }

/-- Count of non-system messages in a transcript. -/
def Transcript.nonSystemCount (t : Transcript) : Nat :=
  (t.messages.filter (fun m => m.role != "system")).length

/-! ## Agent turn (`src/openhoof/agents/lifecycle.py`, `_run_agent_turn`)

The LLM backend is an oracle `llm : Nat → LLMResult` giving the outcome of
the n-th `chat_completion` call inside the turn; `LLMResult.raise` is a
backend exception, which the source does not catch anywhere in
`_run_agent_turn` — it propagates to the caller.  Tool execution mutates
neither the transcript nor the turn result content, so the tool calls
themselves need no oracle beyond the responses that follow them. -/

structure ToolCallM where
  id : String
  name : String
  deriving DecidableEq, Repr

structure ChatResp where
  content : String
  toolCalls : List ToolCallM := []
  thinking : Option String := none
  promptTokens : Nat := 0
  completionTokens : Nat := 0
  totalTokens : Nat := 0
  deriving DecidableEq, Repr

inductive LLMResult where
  | ok (r : ChatResp)
  | raise (e : String)
  deriving DecidableEq, Repr

/-- `MAX_CONTEXT_MESSAGES` in `lifecycle.py`. -/
def MAX_CONTEXT_MESSAGES : Nat := 30

/-- `COMPACT_KEEP_LAST` in `lifecycle.py`. -/
def COMPACT_KEEP_LAST : Nat := 10

/-- `AgentManager._auto_compact_if_needed`: `summaryResult` is the outcome of
the summarisation call to the fast model (`.error` is the caught exception
branch, which substitutes the placeholder text). -/
def autoCompactIfNeeded (t : Transcript)
    (summaryResult : Except String String) : Transcript :=
  let nonSystem := t.messages.filter (fun m => m.role != "system")
  if nonSystem.length ≤ MAX_CONTEXT_MESSAGES then t
  else
    let oldMessages := nonSystem.take (nonSystem.length - COMPACT_KEEP_LAST)
    let summary :=
      match summaryResult with
      | .ok s => s
      | .error _ =>
        "[" ++ toString oldMessages.length ++ " earlier messages compacted]"
    t.compact COMPACT_KEEP_LAST (some summary)

/-- The note appended when the tool-round cap is hit with calls pending. -/
def capNote : String := "\n\n[Max tool rounds reached. Stopping tool execution.]"

/-- The `while response.has_tool_calls() and tool_round < max_tool_rounds`
loop.  `roundsLeft` is `max_tool_rounds - tool_round`; `roundsDone` counts
executed rounds; `idx` indexes the next `chat_completion` call. -/
def toolLoop (llm : Nat → LLMResult) (idx : Nat) (resp : ChatResp) :
    Nat → Nat → Except String (ChatResp × Nat)
  | 0, roundsDone => .ok (resp, roundsDone)
  | roundsLeft + 1, roundsDone =>
    if resp.toolCalls.isEmpty then .ok (resp, roundsDone)
    else
      match llm idx with
      | .raise e => .error e
      | .ok r => toolLoop llm (idx + 1) r roundsLeft (roundsDone + 1)

/-- `AgentManager._run_agent_turn` restricted to its observable effects on
the transcript and its returned content.  The result carries the final
content, the number of executed tool rounds, and the transcript after the
two appends; an uncaught backend exception is `.error (e, transcript at the
raise)` — the transcript as left by auto-compaction, with no messages
appended. -/
def runAgentTurn (llm : Nat → LLMResult) (maxToolRounds : Nat)
    (summaryResult : Except String String) (t : Transcript)
    (userMsg : String) (now : ℚ) :
    Except (String × Transcript) (String × Nat × Transcript) :=
  let t1 := autoCompactIfNeeded t summaryResult
  match llm 0 with
  | .raise e => .error (e, t1)
  | .ok r0 =>
    match toolLoop llm 1 r0 maxToolRounds 0 with
    | .error e => .error (e, t1)
    | .ok (resp, rounds) =>
      let finalContent := resp.content ++
        (if rounds ≥ maxToolRounds && !resp.toolCalls.isEmpty then capNote
         else "")
      let t2 := t1.appendMessage { role := "user", content := userMsg,
                                   timestamp := now }
      let t3 := t2.appendMessage { role := "assistant", content := finalContent,
                                   timestamp := now, thinking := resp.thinking }
      .ok (finalContent, rounds, t3)

/-! ## AutonomyLoop iteration (`src/openhoof/agents/autonomy_loop.py`)

One pass through the body of `AutonomyLoop._loop` combined with `_run_turn`.
The loop receives the turn result from its `_run_agent_turn` callback, which
returns only the final response text — token usage reported by the backend
is recorded on the session store and never reaches the loop.  Accordingly
`_tokens_this_hour` is only ever initialised to 0, reset to 0 by
`_maybe_reset_hour`, and compared against the budget: no statement in the
source increases it.  Wall-clock readings, the active-hours predicate, the
hot-state diff and the pre-check verdict are environment inputs. -/

structure AutonomyConfigM where
  tokenBudgetPerHour : Nat := 100000
  maxConsecutiveTurns : Nat := 50
  idleTimeout : ℚ := 600
  activeHoursConfigured : Bool := false
  precheckConfigured : Bool := false
  deriving DecidableEq, Repr

structure LoopState where
  tokensThisHour : Nat := 0
  hourStart : ℚ := 0
  consecutiveTurns : Nat := 0
  lastMeaningfulAction : ℚ := 0
  lastSnapshotTime : ℚ := 0
  turnCount : Nat := 0
  stopped : Bool := false
  deriving DecidableEq, Repr

structure IterEnv where
  now : ℚ
  withinActiveHours : Bool := true
  hasNotifications : Bool := false
  diffEmpty : Bool := true
  precheckYes : Bool := true
  turnResponse : String := ""
  deriving DecidableEq, Repr

inductive IterOutcome where
  | sleptActiveHours (secs : ℚ)
  | sleptTokenBudget (secs : ℤ)
  | idleStopped
  | turn (d : YieldDirective) (agentTurnIssued : Bool) (forcedSleep : Bool)
  deriving DecidableEq, Repr

/-- `AutonomyLoop._run_turn`: returns the yield directive, the updated loop
state, and whether `_run_agent_turn` was actually invoked (the pre-check
skip paths return a synthetic 10-second sleep directive without a turn). -/
def runTurn (cfg : AutonomyConfigM) (s : LoopState) (env : IterEnv) :
    YieldDirective × LoopState × Bool :=
  let s := { s with turnCount := s.turnCount + 1 }
  if !env.hasNotifications && cfg.precheckConfigured && env.diffEmpty then
    ({ mode := "sleep", sleep := 10, reason := "pre-check: no changes" },
      s, false)
  else if !env.hasNotifications && cfg.precheckConfigured
      && !env.precheckYes then
    ({ mode := "sleep", sleep := 10,
       reason := "pre-check: no material changes" }, s, false)
  else
    let s := { s with lastSnapshotTime := env.now }
    let d := parseYieldFromResponse env.turnResponse
    let s :=
      if responseHadToolCalls env.turnResponse then
        { s with lastMeaningfulAction := env.now }
      else s
    (d, s, true)

/-- Steps 10 of `AutonomyLoop._loop`: enact the parsed yield directive
(`shutdown` stops, `sleep` resets the consecutive-turns counter, `continue`
increments it and forces a 60 s sleep at the cap). -/
def enactYield (cfg : AutonomyConfigM) (d : YieldDirective) (s2 : LoopState)
    (issued : Bool) : LoopState × IterOutcome :=
  if d.mode == "shutdown" then
    ({ s2 with stopped := true }, .turn d issued false)
  else if d.mode == "sleep" then
    ({ s2 with consecutiveTurns := 0 }, .turn d issued false)
  else
    let s3 := { s2 with consecutiveTurns := s2.consecutiveTurns + 1 }
    if s3.consecutiveTurns ≥ cfg.maxConsecutiveTurns then
      ({ s3 with consecutiveTurns := 0 }, .turn d issued true)
    else (s3, .turn d issued false)

/-- The loop body after `_maybe_reset_hour`: token-budget gate, idle gate,
then the turn and its yield enactment. -/
def loopIterationAfterReset (cfg : AutonomyConfigM) (s1 : LoopState)
    (env : IterEnv) : LoopState × IterOutcome :=
  if s1.tokensThisHour ≥ cfg.tokenBudgetPerHour then
    (s1, .sleptTokenBudget (max 1 ⌊3600 - (env.now - s1.hourStart)⌋))
  else if env.now - s1.lastMeaningfulAction > cfg.idleTimeout then
    ({ s1 with stopped := true }, .idleStopped)
  else
    match runTurn cfg s1 env with
    | (d, s2, issued) => enactYield cfg d s2 issued

/-- One iteration of `AutonomyLoop._loop` (the `try` body): gates in source
order — active hours, hourly reset plus token budget, idle timeout — then
the turn and the enactment of its yield directive. -/
def loopIteration (cfg : AutonomyConfigM) (s : LoopState) (env : IterEnv) :
    LoopState × IterOutcome :=
  if cfg.activeHoursConfigured && !env.withinActiveHours then
    (s, .sleptActiveHours 300)
  else
    loopIterationAfterReset cfg
      (if env.now - s.hourStart ≥ 3600 then
        { s with tokensThisHour := 0, hourStart := env.now }
      else s) env

/-! ## Sensor backoff (`src/openhoof/core/sensors.py`, `Sensor._run_loop`)

On success the backoff resets to 0; on a failure the wait becomes the base
interval if the backoff was 0, else it doubles, capped at `MAX_BACKOFF`. -/

def MAX_BACKOFF : ℚ := 300

/-- One pass of the `except Exception` / success bookkeeping in
`Sensor._run_loop`: given the current backoff and whether the iteration
succeeded, return the new backoff and the wait slept (none on success). -/
def sensorStep (base : ℚ) (backoff : ℚ) (success : Bool) :
    ℚ × Option ℚ :=
  if success then (0, none)
  else
    let b' := if backoff == 0 then base else min (backoff * 2) MAX_BACKOFF
    (b', some b')

/-- Backoff value after `n` consecutive failures starting from a fresh (or
just-successful) sensor. -/
def backoffAfter (base : ℚ) : Nat → ℚ
  | 0 => 0
  | n + 1 => (sensorStep base (backoffAfter base n) false).1

/-! ## EventBus (`src/openhoof/core/events.py`)

In-process subscribers are identified by naturals; their behaviour on an
event is an oracle `behave` returning `.error` when the callback raises.
`emit` appends to the bounded history, then calls the subscribers for the
type in registration order, then the `"*"` subscribers, catching (and
logging) every exception; the subscription lists are not modified. -/

structure EventM where
  type : String
  data : List (String × String)
  deriving DecidableEq, Repr

structure EventBusM where
  subscribers : List (String × Nat)
  history : List EventM
  deriving DecidableEq, Repr

def MAX_HISTORY : Nat := 1000

/-- `EventBus.subscribe`. -/
def EventBusM.subscribe (bus : EventBusM) (eventType : String) (h : Nat) :
    EventBusM :=
  { bus with subscribers := bus.subscribers ++ [(eventType, h)] }

/-- The callbacks registered for one event type, in registration order. -/
def EventBusM.handlersFor (bus : EventBusM) (eventType : String) : List Nat :=
  (bus.subscribers.filter (fun p => p.1 == eventType)).map (fun p => p.2)

/-- The `for callback in ...: try: await callback(event) except: log` loop:
every handler is invoked; raised exceptions are collected (logged) and do
not interrupt the iteration. -/
def deliverAll (behave : Nat → EventM → Except String Unit) (ev : EventM) :
    List Nat → List Nat × List (Nat × String)
  | [] => ([], [])
  | h :: rest =>
    let errs :=
      match behave h ev with
      | .error e => [(h, e)]
      | .ok _ => []
    let (received, moreErrs) := deliverAll behave ev rest
    (h :: received, errs ++ moreErrs)

/-- `EventBus.emit`: returns the new bus state, the handlers that received
the event (in delivery order), the logged subscriber errors, and the event
returned to the caller. -/
def EventBusM.emit (bus : EventBusM)
    (behave : Nat → EventM → Except String Unit)
    (eventType : String) (data : List (String × String)) :
    EventBusM × List Nat × List (Nat × String) × EventM :=
  let ev : EventM := { type := eventType, data := data }
  let hist := bus.history ++ [ev]
  let hist := if hist.length > MAX_HISTORY then takeLast MAX_HISTORY hist
              else hist
  let targets := bus.handlersFor eventType ++ bus.handlersFor "*"
  let (received, errs) := deliverAll behave ev targets
  ({ bus with history := hist }, received, errs, ev)

/-! ## Sleep with early wake (`AutonomyLoop._sleep_with_wake_early`)

Time is rational; `queueAt t` is the list of names of the notifications in
`hot_state._notifications` when the poll at elapsed time `t` runs.  The
polling loop is embedded with an explicit iteration bound `fuel`; every
theorem below supplies fuel at least the number of iterations the loop
actually performs, so the bound is never the reason the loop stops.  The
loop runner is never `_stopped` during an enacted sleep, matching the
single-task loop in the source. -/

/-- Python `min(a, b)` on rationals (kept kernel-computable). -/
def ratMin (a b : ℚ) : ℚ := if a ≤ b then a else b

/-- The `while elapsed < seconds` polling loop.  Returns the total time
slept, whether a matching notification caused an early return, and the
number of polls executed. -/
def wakeLoop (wake : List String) (queueAt : ℚ → List String)
    (seconds interval : ℚ) : Nat → ℚ → ℚ × Bool × Nat
  | 0, elapsed => (elapsed, false, 0)
  | fuel + 1, elapsed =>
    if elapsed < seconds then
      let e' := elapsed + interval
      if (queueAt e').any (fun n => wake.contains n) then (e', true, 1)
      else
        let (r, woke, polls) := wakeLoop wake queueAt seconds interval fuel e'
        (r, woke, polls + 1)
    else (elapsed, false, 0)

/-- `AutonomyLoop._sleep_with_wake_early`: an empty `wake_early_if` sleeps
the requested duration uninterrupted; otherwise the poll interval is
`min(1.0, seconds / 10)`. -/
def sleepWithWakeEarly (seconds : ℚ) (wake : List String)
    (queueAt : ℚ → List String) (fuel : Nat) : ℚ × Bool × Nat :=
  if wake.isEmpty then (seconds, false, 0)
  else wakeLoop wake queueAt seconds (ratMin 1 (seconds / 10)) fuel 0

/-! # Theorems for the specification claims -/

theorem lookup_setFieldRec (fields : List (String × HotStateField))
    (name : String) (f g : HotStateField)
    (h : lookupField fields name = some g) :
    lookupField (setFieldRec fields name f) name = some f := by
  induction fields with
  | nil => simp [lookupField] at h
  | cons p rest ih =>
    obtain ⟨k, v⟩ := p
    by_cases hk : k = name
    · subst hk
      simp [setFieldRec, lookupField]
    · simp only [lookupField, hk, if_false] at h
      simp only [setFieldRec, hk, if_false, lookupField]
      exact ih h

/-- C8: for a sensor with base interval 5 s, the waits on consecutive
failures are 5, 10, 20, 40, 80, ... doubling each failure and capped at
300 s, and a success resets the backoff to 0. -/
theorem sensor_backoff_sequence :
    (∀ n : Nat, backoffAfter 5 (n + 1) = min (5 * 2 ^ n) 300) ∧
    (∀ b : ℚ, sensorStep 5 b true = (0, none)) ∧
    [backoffAfter 5 1, backoffAfter 5 2, backoffAfter 5 3, backoffAfter 5 4,
      backoffAfter 5 5] = [5, 10, 20, 40, 80] := by
  refine ⟨?_, fun b => rfl, by norm_num [backoffAfter, sensorStep, MAX_BACKOFF]⟩
  intro n
  induction n with
  | zero => norm_num [backoffAfter, sensorStep, MAX_BACKOFF]
  | succ n ih =>
    have hpos : (0 : ℚ) < min (5 * 2 ^ n) 300 := by positivity
    have hne : (min (5 * (2 : ℚ) ^ n) 300 == 0) = false := by
      simp only [beq_eq_false_iff_ne, ne_eq]
      intro hzero
      rw [hzero] at hpos
      exact lt_irrefl 0 hpos
    show (sensorStep 5 (backoffAfter 5 (n + 1)) false).1 = _
    rw [ih]
    simp only [sensorStep, MAX_BACKOFF, Bool.false_eq_true, if_false, hne]
    have h2 : (5 : ℚ) * 2 ^ (n + 1) = 5 * 2 ^ n * 2 := by ring
    rw [h2]
    rcases le_total (5 * (2 : ℚ) ^ n) 300 with hle | hge
    · rw [min_eq_left hle]
    · rw [min_eq_right hge, min_eq_right (by linarith),
        min_eq_right (by linarith)]

/-- C8 witness: evaluating the backoff formula and the reset at concrete
inputs. -/
theorem sensor_backoff_sequence_witness :
    backoffAfter 5 7 = min (5 * 2 ^ 6) 300 ∧ sensorStep 5 80 true = (0, none) :=
  ⟨sensor_backoff_sequence.1 6, sensor_backoff_sequence.2.1 80⟩

/-- C10: every HotState operation on a field name absent from the schema is
total and non-mutating: `get` returns none, `is_stale` returns false, and
`set` and `append` return false leaving the store (all declared fields and
the notification queue) unchanged, with no exception raised. -/
theorem hotstate_unknown_field_total (hs : HotState) (now : ℚ) (name : String)
    (v item : PyVal) (h : lookupField hs.fields name = none) :
    hs.get name = none ∧
    hs.isStale now name = false ∧
    hs.set now name v = (false, hs) ∧
    hs.append now name item = Except.ok (false, hs) := by
  refine ⟨?_, ?_, ?_, ?_⟩ <;>
    simp [HotState.get, HotState.isStale, HotState.set, HotState.append, h]

/-- C10 witness: a store declaring only `temp`, probed at the unknown name
`ghost`. -/
theorem hotstate_unknown_field_total_witness :
    lookupField (HotState.mk [("temp", { config := {} })] []).fields "ghost"
      = none ∧
    ((HotState.mk [("temp", { config := {} })] []).get "ghost" = none ∧
     (HotState.mk [("temp", { config := {} })] []).isStale 7 "ghost" = false ∧
     (HotState.mk [("temp", { config := {} })] []).set 7 "ghost" (.int 1)
       = (false, HotState.mk [("temp", { config := {} })] []) ∧
     (HotState.mk [("temp", { config := {} })] []).append 7 "ghost" (.int 2)
       = Except.ok (false, HotState.mk [("temp", { config := {} })] [])) :=
  ⟨by rfl,
   hotstate_unknown_field_total (HotState.mk [("temp", { config := {} })] [])
     7 "ghost" (.int 1) (.int 2) (by rfl)⟩

/-- One `append` on an array field with `max_items = M ≥ 1` stores the last
`M` elements of the extended list. -/
theorem append_once (now : ℚ) (name : String) (M : Nat) (hM1 : 1 ≤ M)
    (hs : HotState) (f : HotStateField) (cur : List PyVal)
    (hf : lookupField hs.fields name = some f)
    (harr : f.config.fieldType = "array")
    (hM : f.config.maxItems = some M)
    (hv : f.value.getD (PyVal.list []) = PyVal.list cur)
    (item : PyVal) :
    hs.append now name item = Except.ok (true, HotState.mk
      (setFieldRec hs.fields name (HotStateField.mk f.config
        (some (PyVal.list (takeLast M (cur ++ [item])))) (some now)))
      hs.notifications) := by
  have harr' : (f.config.fieldType != "array") = false := by simp [harr]
  have hMne : (M != 0) = true := by simp; omega
  simp only [HotState.append, hf, harr', Bool.false_eq_true, if_false, hv, hM,
    hMne, Bool.true_and]
  by_cases hlen : (cur ++ [item]).length > M
  · have hlen' : M < cur.length + 1 := by simpa using hlen
    simp [hlen']
  · have hle : (cur ++ [item]).length ≤ M := by omega
    rw [takeLast_of_length_le hle]
    simp [hlen]

/-- Appending a sequence of items to an array field holding the last `M` of
`acc` leaves it holding the last `M` of `acc` followed by the items. -/
theorem appendSeq_from_list (now : ℚ) (name : String) (M : Nat) (hM1 : 1 ≤ M)
    (items : List PyVal) :
    ∀ (hs : HotState) (f : HotStateField) (acc : List PyVal),
      lookupField hs.fields name = some f →
      f.config.fieldType = "array" →
      f.config.maxItems = some M →
      f.value = some (PyVal.list (takeLast M acc)) →
      ∃ hs', hs.appendSeq now name items = .ok hs' ∧
        hs'.get name = some (PyVal.list (takeLast M (acc ++ items))) := by
  induction items with
  | nil =>
    intro hs f acc hf harr hM hv
    exact ⟨hs, rfl, by simp [HotState.get, hf, hv]⟩
  | cons item rest ih =>
    intro hs f acc hf harr hM hv
    have happ := append_once now name M hM1 hs f (takeLast M acc) hf harr hM
      (by rw [hv]; rfl) item
    rw [takeLast_append_takeLast] at happ
    set f' : HotStateField := HotStateField.mk f.config
      (some (PyVal.list (takeLast M (acc ++ [item])))) (some now) with hf'def
    set hs1 : HotState :=
      HotState.mk (setFieldRec hs.fields name f') hs.notifications with hs1def
    have hlk : lookupField hs1.fields name = some f' :=
      lookup_setFieldRec hs.fields name f' f hf
    have hrec := ih hs1 f' (acc ++ [item]) hlk harr hM (by rfl)
    obtain ⟨hs', hseq, hget⟩ := hrec
    refine ⟨hs', ?_, ?_⟩
    · show HotState.appendSeq hs now name (item :: rest) = .ok hs'
      unfold HotState.appendSeq
      rw [happ]
      exact hseq
    · rw [hget, List.append_assoc]
      rfl

/-- C5 counterexample: a field declared `type = "array"` with
`max_items = 0` is not trimmed at all (Python `if f.config.max_items` is
falsy at 0), so one append already stores a list of length 1 > 0. -/
theorem hotstate_max_items_zero_cex :
    storedLen ((HotState.mk [("signals_log", HotStateField.mk
        (HotStateFieldConfig.mk "array" none none (some 0)) none none)]
        []).append 0 "signals_log" (PyVal.int 1)) "signals_log" = some 1 ∧
    ¬ (1 ≤ 0) := by
  exact ⟨rfl, by omega⟩

/-- C5 (amended to `max_items = M ≥ 1`): after any nonempty sequence of
appends to a fresh array field with `max_items = M ≥ 1`, the stored list is
exactly the last `M` appended items and its length is at most `M`. -/
theorem hotstate_append_retains_recent (hs : HotState) (now : ℚ)
    (name : String) (f : HotStateField) (M : Nat)
    (hf : lookupField hs.fields name = some f)
    (harr : f.config.fieldType = "array")
    (hM : f.config.maxItems = some M) (hM1 : 1 ≤ M)
    (hv : f.value = none) (item : PyVal) (rest : List PyVal) :
    ∃ hs', hs.appendSeq now name (item :: rest) = .ok hs' ∧
      hs'.get name = some (PyVal.list (takeLast M (item :: rest))) ∧
      ∀ xs, hs'.get name = some (PyVal.list xs) → xs.length ≤ M := by
  have happ := append_once now name M hM1 hs f [] hf harr hM
    (by rw [hv]; rfl) item
  set f' : HotStateField := HotStateField.mk f.config
    (some (PyVal.list (takeLast M ([] ++ [item])))) (some now) with hf'def
  set hs1 : HotState :=
    HotState.mk (setFieldRec hs.fields name f') hs.notifications with hs1def
  have hlk : lookupField hs1.fields name = some f' :=
    lookup_setFieldRec hs.fields name f' f hf
  have hrec := appendSeq_from_list now name M hM1 rest hs1 f' [item] hlk harr
    hM (by rfl)
  obtain ⟨hs', hseq, hget⟩ := hrec
  have hfinal : hs'.get name = some (PyVal.list (takeLast M (item :: rest))) := by
    rw [hget]; rfl
  refine ⟨hs', ?_, hfinal, ?_⟩
  · show HotState.appendSeq hs now name (item :: rest) = .ok hs'
    unfold HotState.appendSeq
    rw [happ]
    exact hseq
  · intro xs hxs
    rw [hfinal] at hxs
    have : xs = takeLast M (item :: rest) := by
      simpa [PyVal.list.injEq] using hxs.symm
    rw [this]
    exact takeLast_length_le M (item :: rest)

/-- C5 witness: the `signals_log` scenario — `max_items = 5`, appending
1..7 retains exactly `[3, 4, 5, 6, 7]`. -/
theorem hotstate_append_retains_recent_witness :
    ∃ hs', (HotState.mk [("signals_log", HotStateField.mk
        (HotStateFieldConfig.mk "array" none none (some 5)) none none)]
        []).appendSeq 0 "signals_log"
        [PyVal.int 1, PyVal.int 2, PyVal.int 3, PyVal.int 4, PyVal.int 5,
         PyVal.int 6, PyVal.int 7] = .ok hs' ∧
      hs'.get "signals_log" = some (PyVal.list
        [PyVal.int 3, PyVal.int 4, PyVal.int 5, PyVal.int 6, PyVal.int 7]) ∧
      ∀ xs, hs'.get "signals_log" = some (PyVal.list xs) → xs.length ≤ 5 :=
  hotstate_append_retains_recent
    (HotState.mk [("signals_log", HotStateField.mk
      (HotStateFieldConfig.mk "array" none none (some 5)) none none)] [])
    0 "signals_log"
    (HotStateField.mk (HotStateFieldConfig.mk "array" none none (some 5))
      none none)
    5 (by rfl) (by rfl) (by rfl) (by omega) (by rfl) (PyVal.int 1)
    [PyVal.int 2, PyVal.int 3, PyVal.int 4, PyVal.int 5, PyVal.int 6,
     PyVal.int 7]

/-- C3 counterexample: `compact` with `keep_last = 0` on a one-message
transcript performs a compaction but retains the non-system message (the
Python slice `other_msgs[-0:]` is the whole list), where the claim demands
the last 0 non-system messages, i.e. none. -/
theorem transcript_compact_keeplast_zero_cex :
    ((Transcript.mk "s" "a" [Message.mk "user" "m" 0 none] 0 none).compact 0
      (some "sum")).compactionCount = 1 ∧
    ((Transcript.mk "s" "a" [Message.mk "user" "m" 0 none] 0 none).compact 0
      (some "sum")).messages = [Message.mk "user" "m" 0 none] ∧
    [Message.mk "user" "m" 0 none] ≠
      ([] : List Message) ++ takeLast 0 [Message.mk "user" "m" 0 none] := by
  refine ⟨rfl, rfl, by decide⟩

/-- C3 (amended to `keep_last ≥ 1`): a performed compaction increments
`compaction_count` by one and rewrites the messages to all original system
messages followed by the last `keep_last` non-system messages, storing the
given summary (at most one); `compact` is the identity when the transcript
already has at most `keep_last` messages. -/
theorem transcript_compact_spec (t : Transcript) (keepLast : Nat)
    (summary : Option String) (h1 : 1 ≤ keepLast) :
    (t.messages.length > keepLast →
      (t.compact keepLast summary).compactionCount = t.compactionCount + 1 ∧
      (t.compact keepLast summary).messages =
        t.messages.filter (fun m => m.role == "system") ++
          takeLast keepLast (t.messages.filter (fun m => m.role != "system")) ∧
      (t.compact keepLast summary).summary = summary) ∧
    (t.messages.length ≤ keepLast → t.compact keepLast summary = t) := by
  constructor
  · intro hgt
    have hnle : ¬ (t.messages.length ≤ keepLast) := by omega
    have h0 : (keepLast == 0) = false := by simp; omega
    simp [Transcript.compact, hnle, h0]
  · intro hle
    simp [Transcript.compact, hle]

/-- C3 witness: a four-message transcript compacted with `keep_last = 2`. -/
theorem transcript_compact_spec_witness :
    ((Transcript.mk "s" "a" [Message.mk "system" "sys" 0 none,
        Message.mk "user" "a" 0 none, Message.mk "assistant" "b" 0 none,
        Message.mk "user" "c" 0 none] 3 none).messages.length > 2) ∧
    (((Transcript.mk "s" "a" [Message.mk "system" "sys" 0 none,
        Message.mk "user" "a" 0 none, Message.mk "assistant" "b" 0 none,
        Message.mk "user" "c" 0 none] 3 none).compact 2
        (some "sum")).compactionCount = 4 ∧
      ((Transcript.mk "s" "a" [Message.mk "system" "sys" 0 none,
        Message.mk "user" "a" 0 none, Message.mk "assistant" "b" 0 none,
        Message.mk "user" "c" 0 none] 3 none).compact 2
        (some "sum")).messages =
        [Message.mk "system" "sys" 0 none] ++
          takeLast 2 [Message.mk "user" "a" 0 none,
            Message.mk "assistant" "b" 0 none, Message.mk "user" "c" 0 none] ∧
      ((Transcript.mk "s" "a" [Message.mk "system" "sys" 0 none,
        Message.mk "user" "a" 0 none, Message.mk "assistant" "b" 0 none,
        Message.mk "user" "c" 0 none] 3 none).compact 2
        (some "sum")).summary = some "sum") :=
  ⟨by decide,
   (transcript_compact_spec _ 2 (some "sum") (by omega)).1 (by decide)⟩

/-- C6 counterexample: the text `"sleeping for 45s"` contains neither
canonical yield string, so the claim requires `continue`, but the parser
extracts a 45-second sleep. -/
theorem parse_yield_other_text_cex :
    parseYieldFromResponse "sleeping for 45s" =
      { mode := "sleep", sleep := 45 } ∧
    ({ mode := "sleep", sleep := 45 } : YieldDirective) ≠
      { mode := "continue" } := by
  exact ⟨by rfl, by decide⟩

/-- C6 (amended): the parser maps the exact canonical string
`"Sleeping for 30s"` to a 30-second sleep directive and `"Shutting down"` to
shutdown, and every text whose lowercase contains neither `"shutting down"`
nor `"sleeping for"` to continue. -/
theorem parse_yield_canonical :
    parseYieldFromResponse "Sleeping for 30s" =
      { mode := "sleep", sleep := 30 } ∧
    parseYieldFromResponse "Shutting down" =
      { mode := "shutdown", reason := "agent requested shutdown" } ∧
    ∀ s : String,
      hasSub (lowerChars s.toList) "shutting down".toList = false →
      hasSub (lowerChars s.toList) "sleeping for".toList = false →
      parseYieldFromResponse s = { mode := "continue" } := by
  refine ⟨by rfl, by rfl, ?_⟩
  intro s h1 h2
  simp only [parseYieldFromResponse, h1, h2, Bool.false_eq_true, if_false]

/-- C6 witness: the continue branch evaluated at the concrete text
`"All good."`. -/
theorem parse_yield_canonical_witness :
    hasSub (lowerChars "All good.".toList) "shutting down".toList = false ∧
    hasSub (lowerChars "All good.".toList) "sleeping for".toList = false ∧
    parseYieldFromResponse "All good." = { mode := "continue" } :=
  ⟨by rfl, by rfl, parse_yield_canonical.2.2 "All good." (by rfl) (by rfl)⟩

/-- The delivery loop invokes every handler in its input list, in order,
whatever the handlers' outcomes. -/
theorem deliverAll_fst (behave : Nat → EventM → Except String Unit)
    (ev : EventM) : ∀ l : List Nat, (deliverAll behave ev l).1 = l := by
  intro l
  induction l with
  | nil => rfl
  | cons h rest ih =>
    simp only [deliverAll]
    rw [ih]

/-- A handler that raises on the event has its error collected (logged) by
the delivery loop. -/
theorem deliverAll_errs_mem (behave : Nat → EventM → Except String Unit)
    (ev : EventM) (h : Nat) (e : String) (he : behave h ev = .error e) :
    ∀ l : List Nat, h ∈ l → (h, e) ∈ (deliverAll behave ev l).2 := by
  intro l
  induction l with
  | nil => intro hl; simp at hl
  | cons a rest ih =>
    intro hl
    simp only [deliverAll]
    rcases List.mem_cons.mp hl with rfl | hmem
    · rw [he]
      simp
    · rcases hrec : deliverAll behave ev rest with ⟨received, errs⟩
      have := ih hmem
      rw [hrec] at this
      simp only [List.mem_append]
      right
      exact this

/-- C9: a raising in-process subscriber does not prevent delivery — the
event is appended to the bounded history, every subscriber for the type and
every wildcard subscriber still receives it in registration order, the
raised error is only collected (logged), `emit` still returns the event,
and the subscription lists (the failing subscriber included) are
unchanged. -/
theorem eventbus_emit_survives_subscriber_error (bus : EventBusM)
    (behave : Nat → EventM → Except String Unit) (eventType : String)
    (data : List (String × String)) (failing : Nat) (e : String)
    (hfail : behave failing { type := eventType, data := data } =
      .error e) :
    (bus.emit behave eventType data).1.subscribers = bus.subscribers ∧
    (bus.emit behave eventType data).2.1 =
      bus.handlersFor eventType ++ bus.handlersFor "*" ∧
    (bus.emit behave eventType data).1.history =
      (if (bus.history ++ [({ type := eventType, data := data } : EventM)]).length >
          MAX_HISTORY
       then takeLast MAX_HISTORY
         (bus.history ++ [({ type := eventType, data := data } : EventM)])
       else bus.history ++ [({ type := eventType, data := data } : EventM)]) ∧
    (bus.emit behave eventType data).2.2.2 =
      ({ type := eventType, data := data } : EventM) ∧
    (failing ∈ bus.handlersFor eventType ++ bus.handlersFor "*" →
      (failing, e) ∈ (bus.emit behave eventType data).2.2.1) := by
  refine ⟨rfl, ?_, rfl, rfl, ?_⟩
  · show (deliverAll behave { type := eventType, data := data }
      (bus.handlersFor eventType ++ bus.handlersFor "*")).1 = _
    exact deliverAll_fst _ _ _
  · intro hmem
    exact deliverAll_errs_mem behave _ failing e hfail _ hmem

/-- C9 witness: a concrete bus whose only subscriber for `agent:message`
raises, a second subscriber on the wildcard. -/
theorem eventbus_emit_survives_subscriber_error_witness :
    (fun (h : Nat) (_ : EventM) =>
        if h = 0 then (Except.error "boom" : Except String Unit)
        else .ok ()) 0 ({ type := "agent:message", data := [] } : EventM) =
      .error "boom" ∧
    ((EventBusM.mk [("agent:message", 0), ("*", 1)] []).emit
        (fun h _ => if h = 0 then .error "boom" else .ok ())
        "agent:message" []).1.subscribers = [("agent:message", 0), ("*", 1)] ∧
    ((EventBusM.mk [("agent:message", 0), ("*", 1)] []).emit
        (fun h _ => if h = 0 then .error "boom" else .ok ())
        "agent:message" []).2.1 =
      (EventBusM.mk [("agent:message", 0), ("*", 1)] []).handlersFor
          "agent:message" ++
        (EventBusM.mk [("agent:message", 0), ("*", 1)] []).handlersFor "*" := by
  have h := eventbus_emit_survives_subscriber_error
    (EventBusM.mk [("agent:message", 0), ("*", 1)] [])
    (fun h _ => if h = 0 then .error "boom" else .ok ())
    "agent:message" [] 0 "boom" (by rfl)
  exact ⟨by rfl, h.1, h.2.1⟩

/-- The polling loop never sleeps past `seconds` when the remaining time is
a nonnegative multiple of the (positive) interval within the fuel bound. -/
theorem wakeLoop_fst_le (wake : List String) (q : ℚ → List String)
    (seconds interval : ℚ) (hpos : 0 < interval) :
    ∀ (k fuel : Nat) (elapsed : ℚ), k ≤ fuel →
      elapsed + k * interval = seconds →
      (wakeLoop wake q seconds interval fuel elapsed).1 ≤ seconds := by
  intro k
  induction k with
  | zero =>
    intro fuel elapsed _ he
    push_cast at he
    have helapsed : elapsed = seconds := by linarith
    cases fuel with
    | zero => simp [wakeLoop, helapsed]
    | succ f =>
      have : ¬ elapsed < seconds := by rw [helapsed]; exact lt_irrefl _
      simp [wakeLoop, this, helapsed]
  | succ k ih =>
    intro fuel elapsed hk he
    cases fuel with
    | zero => omega
    | succ f =>
      push_cast at he
      have hknn : (0 : ℚ) ≤ (k : ℚ) * interval := by positivity
      have hcond : elapsed < seconds := by nlinarith
      unfold wakeLoop
      rw [if_pos hcond]
      by_cases hm :
          (q (elapsed + interval)).any (fun n => wake.contains n) = true
      · rw [if_pos hm]
        show elapsed + interval ≤ seconds
        nlinarith
      · rw [if_neg hm]
        rcases hsub : wakeLoop wake q seconds interval f (elapsed + interval)
          with ⟨r, woke, polls⟩
        have := ih f (elapsed + interval) (by omega)
          (by ring_nf at he ⊢; linarith)
        rw [hsub] at this
        simpa [hsub] using this

/-- C7: an empty `wake_early_if` sleeps the full duration uninterrupted with
no polls; with a nonempty wake list and an integer duration `N ≥ 1` the loop
sleeps at most `N` seconds; at `sleep(5, [X])` with `X` queued from 0.3 s the
loop returns after the first 0.5-second poll, well before 5 s elapse; and
with only an unrelated notification it sleeps the full 5 s, polling ten
times. -/
theorem sleep_with_wake_early_spec :
    (∀ (seconds : ℚ) (q : ℚ → List String) (fuel : Nat),
      sleepWithWakeEarly seconds [] q fuel = (seconds, false, 0)) ∧
    (∀ (N : Nat) (wake : List String) (q : ℚ → List String) (fuel : Nat),
      1 ≤ N → wake ≠ [] → 10 * N ≤ fuel →
      (sleepWithWakeEarly (N : ℚ) wake q fuel).1 ≤ (N : ℚ)) ∧
    sleepWithWakeEarly 5 ["order_filled"]
      (fun t => if (3 / 10 : ℚ) ≤ t then ["order_filled"] else []) 20 =
      (1 / 2, true, 1) ∧
    sleepWithWakeEarly 5 ["order_filled"] (fun _ => ["unrelated"]) 20 =
      (5, false, 10) := by
  refine ⟨fun seconds q fuel => rfl, ?_,
    by simp [sleepWithWakeEarly, wakeLoop, ratMin]; norm_num,
    by simp [sleepWithWakeEarly, wakeLoop, ratMin]; norm_num⟩
  intro N wake q fuel hN hw hfuel
  have hwne : wake.isEmpty = false := by
    cases wake with
    | nil => exact absurd rfl hw
    | cons a l => rfl
  unfold sleepWithWakeEarly
  rw [hwne]
  simp only [Bool.false_eq_true, if_false]
  rcases le_or_lt (N : ℚ) 10 with hle | hgt
  · have hmin : ratMin 1 ((N : ℚ) / 10) = (N : ℚ) / 10 := by
      unfold ratMin
      split_ifs with h
      · linarith
      · rfl
    rw [hmin]
    have hNpos : (0 : ℚ) < (N : ℚ) / 10 := by
      have : (1 : ℚ) ≤ (N : ℚ) := by exact_mod_cast hN
      linarith
    refine wakeLoop_fst_le wake q (N : ℚ) ((N : ℚ) / 10) hNpos 10 fuel 0
      (by omega) ?_
    push_cast
    ring
  · have hmin : ratMin 1 ((N : ℚ) / 10) = 1 := by
      unfold ratMin
      rw [if_pos (by linarith)]
    rw [hmin]
    refine wakeLoop_fst_le wake q (N : ℚ) 1 one_pos N fuel 0 (by omega) ?_
    ring

/-- C7 witness: the bounded-sleep part evaluated at `N = 5` with an empty
queue. -/
theorem sleep_with_wake_early_spec_witness :
    (1 ≤ 5 ∧ (["order_filled"] : List String) ≠ [] ∧ 10 * 5 ≤ 50) ∧
    (sleepWithWakeEarly ((5 : Nat) : ℚ) ["order_filled"] (fun _ => []) 50).1 ≤
      ((5 : Nat) : ℚ) :=
  ⟨⟨by omega, by simp, by omega⟩,
   sleep_with_wake_early_spec.2.1 5 ["order_filled"] (fun _ => []) 50
     (by omega) (by simp) (by omega)⟩

/-- `_run_turn` never changes the hourly token counter. -/
theorem runTurn_tokens (cfg : AutonomyConfigM) (s : LoopState)
    (env : IterEnv) :
    (runTurn cfg s env).2.1.tokensThisHour = s.tokensThisHour := by
  unfold runTurn
  split_ifs <;> rfl

/-- Enacting a yield directive never changes the hourly token counter. -/
theorem enactYield_tokens (cfg : AutonomyConfigM) (d : YieldDirective)
    (s2 : LoopState) (issued : Bool) :
    (enactYield cfg d s2 issued).1.tokensThisHour = s2.tokensThisHour := by
  simp only [enactYield]
  split_ifs <;> rfl

/-- The post-reset loop body never changes the hourly token counter. -/
theorem loopIterationAfterReset_tokens (cfg : AutonomyConfigM)
    (s1 : LoopState) (env : IterEnv) :
    (loopIterationAfterReset cfg s1 env).1.tokensThisHour =
      s1.tokensThisHour := by
  unfold loopIterationAfterReset
  split_ifs
  · rfl
  · rfl
  · rcases hrt : runTurn cfg s1 env with ⟨d, s2, issued⟩
    have hts := runTurn_tokens cfg s1 env
    rw [hrt] at hts
    rw [enactYield_tokens]
    exact hts

/-- C1 (evidence for the code bug): the loop state holds the hourly token
counter the budget gate reads, yet no statement of the source ever increases
it — one iteration can only keep it or reset it to 0.  Concretely, with
`token_budget_per_hour = 100`, a first iteration whose turn response reports
`total_tokens = 150` to the session store (the loop callback returns only the
response text, so the count never reaches the loop) leaves the counter at 0,
and the following iteration issues another agent turn instead of emitting the
`token_budget` guardrail. -/
theorem token_budget_counter_never_increases :
    (∀ (cfg : AutonomyConfigM) (s : LoopState) (env : IterEnv),
      (loopIteration cfg s env).1.tokensThisHour = 0 ∨
      (loopIteration cfg s env).1.tokensThisHour = s.tokensThisHour) ∧
    (loopIteration { tokenBudgetPerHour := 100 } {}
      { now := 10, turnResponse := "Tool executed. Sleeping for 30s" }).2 =
      .turn { mode := "sleep", sleep := 30 } true false ∧
    (loopIteration { tokenBudgetPerHour := 100 } {}
      { now := 10,
        turnResponse := "Tool executed. Sleeping for 30s" }).1.tokensThisHour
      = 0 ∧
    (loopIteration { tokenBudgetPerHour := 100 }
      (loopIteration { tokenBudgetPerHour := 100 } {}
        { now := 10, turnResponse := "Tool executed. Sleeping for 30s" }).1
      { now := 50, turnResponse := "Tool executed. Sleeping for 30s" }).2 =
      .turn { mode := "sleep", sleep := 30 } true false := by
  have hparse : parseYieldFromResponse "Tool executed. Sleeping for 30s" =
      { mode := "sleep", sleep := 30 } := by rfl
  have htool : responseHadToolCalls "Tool executed. Sleeping for 30s" =
      true := by rfl
  refine ⟨?_, ?_, ?_, ?_⟩
  · intro cfg s env
    unfold loopIteration
    split_ifs with h1 h2
    · right; rfl
    · left
      rw [loopIterationAfterReset_tokens]
    · right
      rw [loopIterationAfterReset_tokens]
  · simp [loopIteration, loopIterationAfterReset, enactYield, runTurn,
      hparse, htool]
    norm_num
  · simp [loopIteration, loopIterationAfterReset, enactYield, runTurn,
      hparse, htool]
    norm_num
  · simp [loopIteration, loopIterationAfterReset, enactYield, runTurn,
      hparse, htool]
    norm_num

/-- Auto-compaction is the identity on transcripts with at most
`MAX_CONTEXT_MESSAGES` non-system messages. -/
theorem autoCompactIfNeeded_of_le (t : Transcript)
    (sm : Except String String)
    (hc : t.nonSystemCount ≤ MAX_CONTEXT_MESSAGES) :
    autoCompactIfNeeded t sm = t := by
  have hc' : (t.messages.filter (fun m => m.role != "system")).length ≤
      MAX_CONTEXT_MESSAGES := hc
  unfold autoCompactIfNeeded
  simp only [hc', if_true, if_pos]

/-- C2 counterexample: when the backend raises on the first
`chat_completion` call, `_run_agent_turn` has no handler — the exception
propagates and the transcript receives neither the user message nor an
assistant message carrying an error string. -/
theorem turn_backend_error_cex :
    runAgentTurn (fun _ => .raise "Connection error") 5
      (.ok "summary") (Transcript.mk "s" "a" [] 0 none) "hello" 0 =
      .error ("Connection error", Transcript.mk "s" "a" [] 0 none) := by
  rfl

/-- C2 (amended): after a successful turn with no compaction the transcript
grows by exactly two messages — the user message then the final assistant
message; when the LLM backend raises during the turn the exception
propagates out of `_run_agent_turn` and the transcript is unchanged. -/
theorem turn_transcript_growth (llm : Nat → LLMResult) (maxRounds : Nat)
    (sm : Except String String) (t : Transcript) (u : String) (now : ℚ)
    (hc : t.nonSystemCount ≤ MAX_CONTEXT_MESSAGES) :
    (∀ f r t', runAgentTurn llm maxRounds sm t u now = .ok (f, r, t') →
      ∃ th, t'.messages = t.messages ++
          [Message.mk "user" u now none, Message.mk "assistant" f now th] ∧
        t'.messages.length = t.messages.length + 2) ∧
    (∀ e t1, runAgentTurn llm maxRounds sm t u now = .error (e, t1) →
      t1.messages = t.messages) := by
  have hac := autoCompactIfNeeded_of_le t sm hc
  constructor
  · intro f r t' hok
    unfold runAgentTurn at hok
    rw [hac] at hok
    cases hllm : llm 0 with
    | raise e =>
      rw [hllm] at hok
      exact absurd hok (by simp)
    | ok r0 =>
      rw [hllm] at hok
      dsimp only at hok
      cases htl : toolLoop llm 1 r0 maxRounds 0 with
      | error e =>
        rw [htl] at hok
        exact absurd hok (by simp)
      | ok pr =>
        obtain ⟨resp, rounds⟩ := pr
        rw [htl] at hok
        simp only [Except.ok.injEq, Prod.mk.injEq] at hok
        obtain ⟨hf, hr, ht⟩ := hok
        refine ⟨resp.thinking, ?_, ?_⟩
        · rw [← ht, ← hf]
          simp [Transcript.appendMessage]
        · rw [← ht]
          simp [Transcript.appendMessage]
  · intro e t1 herr
    unfold runAgentTurn at herr
    rw [hac] at herr
    cases hllm : llm 0 with
    | raise e0 =>
      rw [hllm] at herr
      simp only [Except.error.injEq, Prod.mk.injEq] at herr
      rw [← herr.2]
    | ok r0 =>
      rw [hllm] at herr
      dsimp only at herr
      cases htl : toolLoop llm 1 r0 maxRounds 0 with
      | error e0 =>
        rw [htl] at herr
        simp only [Except.error.injEq, Prod.mk.injEq] at herr
        rw [← herr.2]
      | ok pr =>
        obtain ⟨resp, rounds⟩ := pr
        rw [htl] at herr
        exact absurd herr (by simp)

/-- C2 witness: a successful turn on an empty transcript appends exactly the
user and assistant messages. -/
theorem turn_transcript_growth_witness :
    (Transcript.mk "s" "a" [] 0 none).nonSystemCount ≤
      MAX_CONTEXT_MESSAGES ∧
    ∃ th, (Transcript.mk "s" "a"
        [Message.mk "user" "hello" 0 none, Message.mk "assistant" "hi" 0 none]
        0 none).messages =
      (Transcript.mk "s" "a" [] 0 none).messages ++
        [Message.mk "user" "hello" 0 none,
         Message.mk "assistant" "hi" 0 th] ∧
      (Transcript.mk "s" "a"
        [Message.mk "user" "hello" 0 none, Message.mk "assistant" "hi" 0 none]
        0 none).messages.length =
        (Transcript.mk "s" "a" [] 0 none).messages.length + 2 :=
  ⟨by decide,
   (turn_transcript_growth (fun _ => .ok { content := "hi" }) 5 (.ok "sum")
      (Transcript.mk "s" "a" [] 0 none) "hello" 0 (by decide)).1
     "hi" 0
     (Transcript.mk "s" "a"
       [Message.mk "user" "hello" 0 none, Message.mk "assistant" "hi" 0 none]
       0 none)
     (by rfl)⟩

/-- The tool-call loop executes at most `roundsDone + roundsLeft` rounds. -/
theorem toolLoop_rounds_le (llm : Nat → LLMResult) :
    ∀ (roundsLeft roundsDone idx : Nat) (resp resp' : ChatResp) (r : Nat),
      toolLoop llm idx resp roundsLeft roundsDone = .ok (resp', r) →
      r ≤ roundsDone + roundsLeft := by
  intro roundsLeft
  induction roundsLeft with
  | zero =>
    intro roundsDone idx resp resp' r h
    simp only [toolLoop, Except.ok.injEq, Prod.mk.injEq] at h
    omega
  | succ n ih =>
    intro roundsDone idx resp resp' r h
    unfold toolLoop at h
    by_cases hemp : resp.toolCalls.isEmpty = true
    · rw [if_pos hemp] at h
      simp only [Except.ok.injEq, Prod.mk.injEq] at h
      omega
    · rw [if_neg hemp] at h
      cases hllm : llm idx with
      | raise e =>
        rw [hllm] at h
        exact absurd h (by simp)
      | ok rnext =>
        rw [hllm] at h
        have := ih (roundsDone + 1) (idx + 1) rnext resp' r h
        omega

/-- C4: a turn executes at most `max_tool_rounds` tool rounds; with
`max_tool_rounds = 2` and a backend that always returns a tool call, the
turn terminates after exactly two rounds and the final content carries the
cap-reached note. -/
theorem turn_tool_rounds_capped :
    (∀ (llm : Nat → LLMResult) (maxRounds : Nat)
      (sm : Except String String) (t : Transcript) (u : String) (now : ℚ)
      (f : String) (r : Nat) (t' : Transcript),
      runAgentTurn llm maxRounds sm t u now = .ok (f, r, t') →
      r ≤ maxRounds) ∧
    runAgentTurn
      (fun _ => .ok { content := "working",
                      toolCalls := [ToolCallM.mk "call-1" "exec"] })
      2 (.ok "summary") (Transcript.mk "s" "a" [] 0 none) "go" 0 =
      .ok ("working" ++ capNote, 2, Transcript.mk "s" "a"
        [Message.mk "user" "go" 0 none,
         Message.mk "assistant" ("working" ++ capNote) 0 none] 0 none) := by
  constructor
  · intro llm maxRounds sm t u now f r t' hok
    unfold runAgentTurn at hok
    cases hllm : llm 0 with
    | raise e =>
      rw [hllm] at hok
      exact absurd hok (by simp)
    | ok r0 =>
      rw [hllm] at hok
      dsimp only at hok
      cases htl : toolLoop llm 1 r0 maxRounds 0 with
      | error e =>
        rw [htl] at hok
        exact absurd hok (by simp)
      | ok pr =>
        obtain ⟨resp, rounds⟩ := pr
        rw [htl] at hok
        simp only [Except.ok.injEq, Prod.mk.injEq] at hok
        have := toolLoop_rounds_le llm maxRounds 0 1 r0 resp rounds htl
        omega
  · rfl

/-- C4 witness: the bound applied to a turn whose backend never requests a
tool call (zero rounds under a cap of three). -/
theorem turn_tool_rounds_capped_witness :
    runAgentTurn (fun _ => .ok { content := "plain" }) 3 (.ok "summary")
      (Transcript.mk "s" "a" [] 0 none) "m" 0 =
      .ok ("plain", 0, Transcript.mk "s" "a"
        [Message.mk "user" "m" 0 none,
         Message.mk "assistant" "plain" 0 none] 0 none) ∧
    0 ≤ 3 :=
  ⟨by rfl,
   turn_tool_rounds_capped.1 (fun _ => .ok { content := "plain" }) 3
     (.ok "summary") (Transcript.mk "s" "a" [] 0 none) "m" 0 "plain" 0
     (Transcript.mk "s" "a"
       [Message.mk "user" "m" 0 none,
        Message.mk "assistant" "plain" 0 none] 0 none)
     (by rfl)⟩

end Openhoof
